import Mathlib

/-!
Shallow embedding of the etcd3-rs client (src/client.rs, src/sync_client.rs,
src/lib.rs) and proofs about its request-building and response-interpretation
logic.

Modelling conventions:
* Rust byte strings (Vec<u8>, the bytes of String / &str inputs) are `List Nat`,
  each element a byte value; where the source increments a byte (u8 arithmetic)
  the wrap is written explicitly as `% 256`.
* The prost-generated gRPC message types (an external schema, produced by
  tonic::include_proto! in src/lib.rs) are modelled with exactly the fields this
  client reads or writes; the remaining proto fields are left at their defaults
  by the source (`..Default::default()`) and are omitted here.
* The RPC stub (tonic KvClient) is a record of oracle functions: each operation
  receives it and the model returns both the list of requests the operation
  issues (in order) and the operation's result.  The txn oracle additionally
  takes the sequence number of the txn call within the operation, so the model
  can answer differently per wire call (bulk_put issues several).
* Fallible Rust code (`Result<_, Error>`) becomes `Except Error _`; a possible
  `panic!` (from `.unwrap()`) is the explicit `PResult.panic` outcome.
-/

namespace Etcd3

/-- Bytes of a Rust `Vec<u8>` / the UTF-8 bytes of a `String`. -/
abbrev Bytes := List Nat

/-- Stand-in for `tonic::Status` (an opaque external error value). -/
structure Status where
  code : Nat
deriving Repr, DecidableEq

/-- Stand-in for `tonic::transport::Error` (opaque external error value). -/
structure TransportErr where
  code : Nat
deriving Repr, DecidableEq

/-- Stand-in for `std::io::Error` (opaque external error value). -/
structure IoErr where
  code : Nat
deriving Repr, DecidableEq

/-- `error::Error` from src/lib.rs: the four variants of the client error enum. -/
inductive Error where
  | Grpc (s : Status)
  | Transport (e : TransportErr)
  | Io (e : IoErr)
  | Swap (k : Bytes)
deriving Repr, DecidableEq

/-- `etcdserverpb.PutRequest` (fields the client sets; defaults as in prost). -/
structure PutRequest where
  key : Bytes := []
  value : Bytes := []
  lease : Int := 0
  prev_kv : Bool := false
  ignore_value : Bool := false
  ignore_lease : Bool := false
deriving Repr, DecidableEq

/-- `etcdserverpb.RangeRequest` (key and range_end; the other proto fields are
left at their defaults by the source and omitted). -/
structure RangeRequest where
  key : Bytes := []
  range_end : Bytes := []
deriving Repr, DecidableEq

/-- `etcdserverpb.DeleteRangeRequest`. -/
structure DeleteRangeRequest where
  key : Bytes := []
  range_end : Bytes := []
  prev_kv : Bool := false
deriving Repr, DecidableEq

/-- `etcdserverpb.compare.CompareResult` (proto enum). -/
inductive CompareResult where
  | Equal | Greater | Less | NotEqual
deriving Repr, DecidableEq

/-- `etcdserverpb.compare.CompareTarget` (proto enum). -/
inductive CompareTarget where
  | Version | Create | Mod | Value | Lease
deriving Repr, DecidableEq

/-- `etcdserverpb.compare.TargetUnion` (proto oneof). -/
inductive TargetUnion where
  | version (v : Int)
  | createRevision (v : Int)
  | modRevision (v : Int)
  | value (v : Bytes)
  | lease (v : Int)
deriving Repr, DecidableEq

/-- `etcdserverpb.Compare`. -/
structure Compare where
  result : CompareResult := .Equal
  target : CompareTarget := .Version
  key : Bytes := []
  range_end : Bytes := []
  target_union : Option TargetUnion := none
deriving Repr, DecidableEq

/-- `etcdserverpb.request_op.Request` (proto oneof of a transaction operation). -/
inductive Request where
  | RequestRange (r : RangeRequest)
  | RequestPut (r : PutRequest)
  | RequestDeleteRange (r : DeleteRangeRequest)
deriving Repr, DecidableEq

/-- `etcdserverpb.RequestOp`. -/
structure RequestOp where
  request : Option Request := none
deriving Repr, DecidableEq

/-- `etcdserverpb.TxnRequest` (compare plus the two conditional op lists). -/
structure TxnRequest where
  compare : List Compare := []
  success : List RequestOp := []
  failure : List RequestOp := []
deriving Repr, DecidableEq

/-- `mvccpb.KeyValue` (key and value bytes; revision/lease fields unread). -/
structure KeyValue where
  key : Bytes := []
  value : Bytes := []
deriving Repr, DecidableEq

/-- `etcdserverpb.RangeResponse` (the kvs list; header/more/count unread). -/
structure RangeResponse where
  kvs : List KeyValue := []
deriving Repr, DecidableEq

/-- `etcdserverpb.PutResponse` (no field is read by the client). -/
inductive PutResponse where
  | mk
deriving Repr, DecidableEq

/-- `etcdserverpb.DeleteRangeResponse` (no field is read by the client). -/
inductive DeleteRangeResponse where
  | mk
deriving Repr, DecidableEq

/-- `etcdserverpb.TxnResponse` (the succeeded flag; header/responses unread). -/
structure TxnResponse where
  succeeded : Bool := false
deriving Repr, DecidableEq

/-- Outcome of Rust code that may `panic!`: either a panic (from `.unwrap()` on
`None`/`Err`) or a normal value. -/
inductive PResult (α : Type) where
  | panic
  | ok (a : α)
deriving Repr, DecidableEq

deriving instance DecidableEq for Except

/-- The RPC stub: the tonic `KvClient` viewed as an oracle.  Each method maps a
request to either a `tonic::Status` failure or a decoded response
(`Response::into_inner` applied).  `txnRpc` also receives the sequence number of
the txn call within the current operation. -/
structure KvStub where
  putRpc : PutRequest → Except Status PutResponse
  rangeRpc : RangeRequest → Except Status RangeResponse
  deleteRangeRpc : DeleteRangeRequest → Except Status DeleteRangeResponse
  txnRpc : Nat → TxnRequest → Except Status TxnResponse

/-- A request issued on the wire by one client operation. -/
inductive IssuedReq where
  | put (r : PutRequest)
  | range (r : RangeRequest)
  | deleteRange (r : DeleteRangeRequest)
  | txn (r : TxnRequest)
deriving Repr, DecidableEq

/-- `EtcdClient` from src/client.rs: holds the kv stub (`self.kv`). -/
structure EtcdClient where
  kv : KvStub

/-- `SyncEtcdClient` from src/sync_client.rs: wraps the async client (the tokio
runtime it also owns is modelled by `blockOn`). -/
structure SyncEtcdClient where
  inner : EtcdClient

/-- Models `tokio::runtime::Runtime::block_on`: drives the async computation to
completion.  In this embedding an async computation is already its completed
value, so running it to completion returns it unchanged. -/
def blockOn (a : α) : α := a

/-! ## Pure helpers embedded from the source -/

/-- The range-end computation shared by `get_prefix` and `delete_prefix`
(src/client.rs lines 101-107 and 172-178): copy the key and increment its last
byte if there is one (u8 increment, wrapping at 256). -/
def incLast : Bytes → Bytes
  | [] => []
  | [b] => [(b + 1) % 256]
  | b :: c :: r => b :: incLast (c :: r)

/-- `slice::chunks(n)` from `bulk_put` (src/client.rs line 50): consecutive
sub-lists of length `n`, the last one possibly shorter.  (The source panics on
chunk size 0; the model returns no chunks there, and every call site uses
`n = 1000`.) -/
def chunks (n : Nat) : List α → List (List α)
  | [] => []
  | a :: l =>
    if _h : n = 0 then []
    else (a :: l).take n :: chunks n ((a :: l).drop n)
termination_by l => l.length
decreasing_by
  simp only [List.length_drop, List.length_cons]
  omega

/-- Byte-lexicographic strict order on byte strings (the store's key order;
spec section 3: "equality and ordering are byte-lexicographic"). -/
def bytesLt : Bytes → Bytes → Bool
  | _, [] => false
  | [], _ :: _ => true
  | a :: as, b :: bs => if a < b then true else if a = b then bytesLt as bs else false

/-- Byte-lexicographic order, non-strict. -/
def bytesLe (x y : Bytes) : Prop := x = y ∨ bytesLt x y = true

/-- UTF-8 validity of a byte sequence, exactly the table checked by Rust's
`String::from_utf8` (core::str validation): ASCII; C2-DF + 1 continuation;
E0 A0-BF, E1-EC / EE / EF 80-BF, ED 80-9F + 1 more continuation;
F0 90-BF, F1-F3 80-BF, F4 80-8F + 2 more continuations.  The first argument is
the list of (lo, hi) bounds still expected for continuation bytes. -/
def utf8Go : List (Nat × Nat) → Bytes → Bool
  | [], [] => true
  | _ :: _, [] => false
  | [], b :: rest =>
    if b ≤ 0x7F then utf8Go [] rest
    else if 0xC2 ≤ b ∧ b ≤ 0xDF then utf8Go [(0x80, 0xBF)] rest
    else if b = 0xE0 then utf8Go [(0xA0, 0xBF), (0x80, 0xBF)] rest
    else if (0xE1 ≤ b ∧ b ≤ 0xEC) ∨ b = 0xEE ∨ b = 0xEF then
      utf8Go [(0x80, 0xBF), (0x80, 0xBF)] rest
    else if b = 0xED then utf8Go [(0x80, 0x9F), (0x80, 0xBF)] rest
    else if b = 0xF0 then utf8Go [(0x90, 0xBF), (0x80, 0xBF), (0x80, 0xBF)] rest
    else if 0xF1 ≤ b ∧ b ≤ 0xF3 then
      utf8Go [(0x80, 0xBF), (0x80, 0xBF), (0x80, 0xBF)] rest
    else if b = 0xF4 then utf8Go [(0x80, 0x8F), (0x80, 0xBF), (0x80, 0xBF)] rest
    else false
  | (lo, hi) :: ps, b :: rest =>
    if lo ≤ b ∧ b ≤ hi then utf8Go ps rest else false

/-- A byte sequence is valid UTF-8. -/
def utf8Valid (l : Bytes) : Bool := utf8Go [] l

/-- `String::from_utf8`: returns the string (its byte content) when the bytes
are valid UTF-8, and an error (here `none`) otherwise. -/
def fromUtf8 (l : Bytes) : Option Bytes :=
  if utf8Valid l then some l else none

/-! ## Request builders (src/client.rs) -/

/-- The `PutRequest` built by `put` (lines 37-41): key and value set, the rest
defaulted. -/
def putRequest (k v : Bytes) : PutRequest := { key := k, value := v }

/-- The per-key `RequestOp` built by `bulk_put` (lines 54-66): a put of the key
with an empty value and every other field written out as zero/false. -/
def bulkPutOp (k : Bytes) : RequestOp :=
  { request := some (.RequestPut
      { key := k, value := [], lease := 0, prev_kv := false,
        ignore_value := false, ignore_lease := false }) }

/-- The per-chunk `TxnRequest` built by `bulk_put` (lines 68-71): success ops
only, compare and failure lists left at their (empty) defaults. -/
def bulkPutTxn (chunk : List Bytes) : TxnRequest :=
  { success := chunk.map bulkPutOp }

/-- The `RangeRequest` built by `get` (lines 79-82): key only, range_end left
at its (empty) default. -/
def getRequest (k : Bytes) : RangeRequest := { key := k }

/-- The `RangeRequest` built by `get_prefix` (lines 99-113): key is the prefix,
range_end is the prefix with its last byte incremented. -/
def getPrefixRequest (p : Bytes) : RangeRequest :=
  { key := p, range_end := incLast p }

/-- The per-key `RequestOp` built by `delete` (lines 143-153): a `DeleteRange`
of the exact key with an empty range end. -/
def deleteOp (key : Bytes) : RequestOp :=
  { request := some (.RequestDeleteRange
      { key := key, range_end := [], prev_kv := false }) }

/-- The `TxnRequest` built by `delete` (lines 156-160): explicit empty compare
and failure lists, one `deleteOp` per key. -/
def deleteTxn (keys : List Bytes) : TxnRequest :=
  { compare := [], success := keys.map deleteOp, failure := [] }

/-- The `DeleteRangeRequest` built by `delete_prefix` (lines 170-184). -/
def deletePrefixRequest (p : Bytes) : DeleteRangeRequest :=
  { key := p, range_end := incLast p, prev_kv := false }

/-- The `TxnRequest` built by `swap` (lines 197-224): one equality-on-value
compare of `key` against `old_v`, one success put of `new_v`, empty failure. -/
def swapTxn (key old_v new_v : Bytes) : TxnRequest :=
  let cmp : Compare :=
    { result := .Equal, target := .Value, key := key, range_end := [],
      target_union := some (.value old_v) }
  let op : RequestOp :=
    { request := some (.RequestPut
        { key := key, value := new_v, lease := 0, prev_kv := false,
          ignore_value := false, ignore_lease := false }) }
  { compare := [cmp], success := [op], failure := [] }

/-! ## Client operations (src/client.rs)

Each operation returns the list of wire requests it issues, in order, together
with its result. -/

/-- `EtcdClient::new` (lines 25-28): `KvClient::connect` either fails with a
transport error (propagated via `?` as `Error::Transport`) or yields the stub. -/
def EtcdClient.new (conn : Except TransportErr KvStub) : Except Error EtcdClient :=
  match conn with
  | .error e => .error (.Transport e)
  | .ok kv => .ok { kv := kv }

/-- `EtcdClient::put` (lines 36-44). -/
def EtcdClient.put (self : EtcdClient) (k v : Bytes) :
    List IssuedReq × Except Error Unit :=
  ([.put (putRequest k v)],
   match self.kv.putRpc (putRequest k v) with
   | .error s => .error (.Grpc s)
   | .ok _ => .ok ())

/-- The chunk loop of `bulk_put` (lines 51-73): issue one txn per chunk in
order, stopping at (and propagating) the first RPC failure.  `i` is the
sequence number of the next txn call. -/
def bulkPutGo (rpc : Nat → TxnRequest → Except Status TxnResponse) (i : Nat) :
    List (List Bytes) → List IssuedReq × Except Error Unit
  | [] => ([], .ok ())
  | c :: cs =>
    match rpc i (bulkPutTxn c) with
    | .error s => ([.txn (bulkPutTxn c)], .error (.Grpc s))
    | .ok _ =>
      (.txn (bulkPutTxn c) :: (bulkPutGo rpc (i + 1) cs).1,
       (bulkPutGo rpc (i + 1) cs).2)

/-- `EtcdClient::bulk_put` (lines 47-76): chunk the keys by 1000 and run the
transaction loop. -/
def EtcdClient.bulk_put (self : EtcdClient) (keys : List Bytes) :
    List IssuedReq × Except Error Unit :=
  bulkPutGo self.kv.txnRpc 0 (chunks 1000 keys)

/-- `EtcdClient::get` (lines 78-95): single-key range query; `Vec::pop` takes
the last element of `kvs`; its value is decoded with
`String::from_utf8(..).unwrap()` (panic on invalid UTF-8). -/
def EtcdClient.get (self : EtcdClient) (k : Bytes) :
    List IssuedReq × PResult (Except Error (Option Bytes)) :=
  ([.range (getRequest k)],
   match self.kv.rangeRpc (getRequest k) with
   | .error s => .ok (.error (.Grpc s))
   | .ok resp =>
     match resp.kvs.getLast? with
     | none => .ok (.ok none)
     | some kv =>
       match fromUtf8 kv.value with
       | none => .panic
       | some v => .ok (.ok (some v)))

/-- The decoding loop of `get_prefix` (lines 121-129): each key and value is
decoded with `String::from_utf8(..).unwrap()`; any invalid UTF-8 byte sequence
panics. -/
def decodeKvs : List KeyValue → PResult (List (Bytes × Bytes))
  | [] => .ok []
  | kv :: rest =>
    match fromUtf8 kv.key, fromUtf8 kv.value with
    | some k, some v =>
      match decodeKvs rest with
      | .panic => .panic
      | .ok l => .ok ((k, v) :: l)
    | _, _ => .panic

/-- `EtcdClient::get_prefix` (lines 98-133).  (The source collects the decoded
pairs into a `HashMap`; the model returns them as the list of pairs in response
order — the store returns unique keys, and no claim depends on map shape.) -/
def EtcdClient.getPrefix (self : EtcdClient) (p : Bytes) :
    List IssuedReq × PResult (Except Error (List (Bytes × Bytes))) :=
  ([.range (getPrefixRequest p)],
   match self.kv.rangeRpc (getPrefixRequest p) with
   | .error s => .ok (.error (.Grpc s))
   | .ok resp =>
     match decodeKvs resp.kvs with
     | .panic => .panic
     | .ok l => .ok (.ok l))

/-- `EtcdClient::delete` (lines 136-166): one unconditional txn for all keys. -/
def EtcdClient.delete (self : EtcdClient) (keys : List Bytes) :
    List IssuedReq × Except Error Unit :=
  ([.txn (deleteTxn keys)],
   match self.kv.txnRpc 0 (deleteTxn keys) with
   | .error s => .error (.Grpc s)
   | .ok _ => .ok ())

/-- `EtcdClient::delete_prefix` (lines 169-188): one direct `DeleteRange` RPC
over the prefix range. -/
def EtcdClient.deletePrefix (self : EtcdClient) (p : Bytes) :
    List IssuedReq × Except Error Unit :=
  ([.deleteRange (deletePrefixRequest p)],
   match self.kv.deleteRangeRpc (deletePrefixRequest p) with
   | .error s => .error (.Grpc s)
   | .ok _ => .ok ())

/-- `EtcdClient::swap` (lines 191-232): issue the compare-and-swap txn; on RPC
success return `Ok(())` when `succeeded`, else `Error::Swap(key)`. -/
def EtcdClient.swap (self : EtcdClient) (k old_v new_v : Bytes) :
    List IssuedReq × Except Error Unit :=
  ([.txn (swapTxn k old_v new_v)],
   match self.kv.txnRpc 0 (swapTxn k old_v new_v) with
   | .error s => .error (.Grpc s)
   | .ok resp => if resp.succeeded then .ok () else .error (.Swap k))

/-! ## SyncEtcdClient operations (src/sync_client.rs): each method blocks on
the corresponding async call on the wrapped inner client. -/

/-- `SyncEtcdClient::new` (lines 16-20): create the runtime (an I/O error is
propagated via `?` as `Error::Io`) then block on `EtcdClient::new`. -/
def SyncEtcdClient.new (rt : Except IoErr Unit) (conn : Except TransportErr KvStub) :
    Except Error SyncEtcdClient :=
  match rt with
  | .error e => .error (.Io e)
  | .ok _ =>
    match blockOn (EtcdClient.new conn) with
    | .error e => .error e
    | .ok inner => .ok { inner := inner }

/-- `SyncEtcdClient::put` (src/sync_client.rs lines 34-37). -/
def SyncEtcdClient.put (self : SyncEtcdClient) (k v : Bytes) :
    List IssuedReq × Except Error Unit :=
  blockOn (self.inner.put k v)

/-- `SyncEtcdClient::bulk_put` (lines 40-43). -/
def SyncEtcdClient.bulk_put (self : SyncEtcdClient) (keys : List Bytes) :
    List IssuedReq × Except Error Unit :=
  blockOn (self.inner.bulk_put keys)

/-- `SyncEtcdClient::get` (lines 46-49). -/
def SyncEtcdClient.get (self : SyncEtcdClient) (k : Bytes) :
    List IssuedReq × PResult (Except Error (Option Bytes)) :=
  blockOn (self.inner.get k)

/-- `SyncEtcdClient::get_prefix` (lines 52-55). -/
def SyncEtcdClient.getPrefix (self : SyncEtcdClient) (p : Bytes) :
    List IssuedReq × PResult (Except Error (List (Bytes × Bytes))) :=
  blockOn (self.inner.getPrefix p)

/-- `SyncEtcdClient::delete` (lines 58-61). -/
def SyncEtcdClient.delete (self : SyncEtcdClient) (keys : List Bytes) :
    List IssuedReq × Except Error Unit :=
  blockOn (self.inner.delete keys)

/-- `SyncEtcdClient::delete_prefix` (lines 64-67). -/
def SyncEtcdClient.deletePrefix (self : SyncEtcdClient) (p : Bytes) :
    List IssuedReq × Except Error Unit :=
  blockOn (self.inner.deletePrefix p)

/-- `SyncEtcdClient::swap` (lines 70-78). -/
def SyncEtcdClient.swap (self : SyncEtcdClient) (k old_v new_v : Bytes) :
    List IssuedReq × Except Error Unit :=
  blockOn (self.inner.swap k old_v new_v)

/-! ## Spec-side classification of errors

Spec section 7 names exactly three user-visible failure kinds; its
`TransportError` kind is defined there as "connection/channel establishment or
I/O failure", so both the `Transport` and `Io` variants of the source enum fall
under it, `Grpc` is the `RemoteError` kind, and `Swap` is `SwapFailed`. -/

/-- The three failure kinds of spec section 7. -/
inductive ErrorKind where
  | transport | remote | swapFailed
deriving Repr, DecidableEq

/-- Classify a source `Error` value into the spec's three kinds (spec section
7: the transport kind covers connection/channel establishment and I/O). -/
def Error.kind : Error → ErrorKind
  | .Grpc _ => .remote
  | .Transport _ => .transport
  | .Io _ => .transport
  | .Swap _ => .swapFailed


/-! ## Properties of `chunks` -/
theorem chunks_nil (n : Nat) : chunks n ([] : List α) = [] := by
  simp [chunks]

theorem chunks_cons (n : Nat) (hn : n ≠ 0) (a : α) (l : List α) :
    chunks n (a :: l) = (a :: l).take n :: chunks n ((a :: l).drop n) := by
  rw [chunks]
  simp [hn]

theorem ceil_div_step (n m : Nat) (hn : 0 < n) (hm : 0 < m) :
    (m - n + (n - 1)) / n + 1 = (m + (n - 1)) / n := by
  rcases le_or_lt m n with h | h
  · have h1 : m - n = 0 := Nat.sub_eq_zero_of_le h
    rw [h1, Nat.zero_add, Nat.div_eq_of_lt (by omega)]
    have h2 : (m + (n - 1)) / n = 1 := by
      apply Nat.div_eq_of_lt_le <;> omega
    omega
  · have h2 : m + (n - 1) = m - n + (n - 1) + n := by omega
    rw [h2, Nat.add_div_right _ hn]

theorem chunks_length_le (n : Nat) (hn : n ≠ 0) :
    ∀ (m : Nat) (l : List α), l.length ≤ m →
      (chunks n l).length = (l.length + (n - 1)) / n := by
  intro m
  induction m with
  | zero =>
    intro l hl
    have h0 : l = [] := List.eq_nil_of_length_eq_zero (Nat.le_zero.mp hl)
    subst h0
    rw [chunks_nil]
    simp [Nat.div_eq_of_lt (by omega : n - 1 < n)]
  | succ m ih =>
    intro l hl
    cases l with
    | nil =>
      rw [chunks_nil]
      simp [Nat.div_eq_of_lt (by omega : n - 1 < n)]
    | cons a t =>
      rw [chunks_cons n hn]
      have hrec := ih ((a :: t).drop n)
        (by simp only [List.length_drop, List.length_cons] at hl ⊢; omega)
      simp only [List.length_cons, List.length_drop] at hrec ⊢
      rw [hrec]
      exact ceil_div_step n (t.length + 1) (Nat.pos_of_ne_zero hn) (by omega)

theorem chunks_length (n : Nat) (hn : n ≠ 0) (l : List α) :
    (chunks n l).length = (l.length + (n - 1)) / n :=
  chunks_length_le n hn l.length l le_rfl

theorem chunks_flatten_le (n : Nat) (hn : n ≠ 0) :
    ∀ (m : Nat) (l : List α), l.length ≤ m → (chunks n l).flatten = l := by
  intro m
  induction m with
  | zero =>
    intro l hl
    have h0 : l = [] := List.eq_nil_of_length_eq_zero (Nat.le_zero.mp hl)
    subst h0
    rw [chunks_nil]
    rfl
  | succ m ih =>
    intro l hl
    cases l with
    | nil => rw [chunks_nil]; rfl
    | cons a t =>
      rw [chunks_cons n hn]
      have hrec := ih ((a :: t).drop n)
        (by simp only [List.length_drop, List.length_cons] at hl ⊢; omega)
      simp [List.flatten, hrec]

theorem chunks_flatten (n : Nat) (hn : n ≠ 0) (l : List α) :
    (chunks n l).flatten = l :=
  chunks_flatten_le n hn l.length l le_rfl

theorem chunks_mem_length_le (n : Nat) (hn : n ≠ 0) :
    ∀ (m : Nat) (l : List α), l.length ≤ m →
      ∀ c ∈ chunks n l, c.length ≤ n := by
  intro m
  induction m with
  | zero =>
    intro l hl
    have h0 : l = [] := List.eq_nil_of_length_eq_zero (Nat.le_zero.mp hl)
    subst h0
    rw [chunks_nil]
    intro c hc
    exact absurd hc (List.not_mem_nil c)
  | succ m ih =>
    intro l hl
    cases l with
    | nil =>
      rw [chunks_nil]
      intro c hc
      exact absurd hc (List.not_mem_nil c)
    | cons a t =>
      rw [chunks_cons n hn]
      intro c hc
      rcases List.mem_cons.mp hc with h | h
      · subst h
        simp [List.length_take]
      · exact ih ((a :: t).drop n)
          (by simp only [List.length_drop, List.length_cons] at hl ⊢; omega) c h

theorem chunks_mem_length (n : Nat) (hn : n ≠ 0) (l : List α) :
    ∀ c ∈ chunks n l, c.length ≤ n :=
  chunks_mem_length_le n hn l.length l le_rfl

theorem chunks_len_2500 (l : List α) (hl : l.length = 2500) :
    (chunks 1000 l).map List.length = [1000, 1000, 500] := by
  cases l with
  | nil => simp at hl
  | cons a t =>
    rw [chunks_cons 1000 (by omega)]
    rcases h2 : (a :: t).drop 1000 with _ | ⟨b, u⟩
    · have hc := congrArg List.length h2
      rw [List.length_drop, hl] at hc
      simp at hc
    · have hlen2 : (b :: u).length = 1500 := by
        have hc := congrArg List.length h2
        rw [List.length_drop, hl] at hc
        omega
      rw [chunks_cons 1000 (by omega)]
      rcases h3 : (b :: u).drop 1000 with _ | ⟨c, w⟩
      · have hc := congrArg List.length h3
        rw [List.length_drop, hlen2] at hc
        simp at hc
      · have hlen3 : (c :: w).length = 500 := by
          have hc := congrArg List.length h3
          rw [List.length_drop, hlen2] at hc
          omega
        rw [chunks_cons 1000 (by omega)]
        have h4 : (c :: w).drop 1000 = [] :=
          List.eq_nil_of_length_eq_zero (by rw [List.length_drop, hlen3])
        have h5 : (c :: w).take 1000 = c :: w :=
          List.take_of_length_le (by omega)
        rw [h4, chunks_nil, h5]
        simp only [List.map_cons, List.map_nil, List.length_take, hl, hlen2, hlen3]
        norm_num

/-! ## Properties of the range codec, byte order and the bulk_put loop -/

theorem incLast_append_singleton (q : List Nat) (b : Nat) :
    incLast (q ++ [b]) = q ++ [(b + 1) % 256] := by
  induction q with
  | nil => rfl
  | cons a q ih =>
    cases hq : q ++ [b] with
    | nil => exact absurd hq (by simp)
    | cons c r =>
      show incLast (a :: (q ++ [b])) = a :: (q ++ [(b + 1) % 256])
      rw [hq]
      show a :: incLast (c :: r) = a :: (q ++ [(b + 1) % 256])
      rw [← hq, ih]

theorem incLast_eq_dropLast (p : List Nat) (hp : p ≠ []) :
    incLast p = p.dropLast ++ [(p.getLast hp + 1) % 256] := by
  have h1 : p.dropLast ++ [p.getLast hp] = p := List.dropLast_append_getLast hp
  calc incLast p = incLast (p.dropLast ++ [p.getLast hp]) := by rw [h1]
    _ = p.dropLast ++ [(p.getLast hp + 1) % 256] := incLast_append_singleton _ _

theorem bytesLt_append_left (q x y : List Nat) :
    bytesLt (q ++ x) (q ++ y) = bytesLt x y := by
  induction q with
  | nil => rfl
  | cons a q ih =>
    show bytesLt (a :: (q ++ x)) (a :: (q ++ y)) = bytesLt x y
    simp only [bytesLt, Nat.lt_irrefl, if_false, if_pos rfl, ih, ite_self]
    simp [ih]

theorem bytesLe_append (p t : List Nat) : bytesLe p (p ++ t) := by
  cases t with
  | nil => left; simp
  | cons b ts =>
    right
    have h := bytesLt_append_left p [] (b :: ts)
    rw [List.append_nil] at h
    rw [h]
    rfl

theorem bytesLt_snoc_inc (q : List Nat) (b : Nat) (t : List Nat) :
    bytesLt (q ++ (b :: t)) (q ++ [b + 1]) = true := by
  rw [bytesLt_append_left]
  show (if b < b + 1 then true else if b = b + 1 then bytesLt t [] else false) = true
  simp


theorem bulkPutGo_ok (rpc : Nat → TxnRequest → Except Status TxnResponse)
    (hok : ∀ i t, (rpc i t).isOk = true) :
    ∀ (cs : List (List Bytes)) (i : Nat),
      bulkPutGo rpc i cs = (cs.map (fun c => .txn (bulkPutTxn c)), .ok ()) := by
  intro cs
  induction cs with
  | nil => intro i; rfl
  | cons c cs ih =>
    intro i
    have h := hok i (bulkPutTxn c)
    cases hc : rpc i (bulkPutTxn c) with
    | error s => rw [hc] at h; simp [Except.isOk, Except.toBool] at h
    | ok r =>
      simp [bulkPutGo, hc, ih (i + 1)]

theorem bulkPutGo_fst_prefix (rpc : Nat → TxnRequest → Except Status TxnResponse) :
    ∀ (cs : List (List Bytes)) (i : Nat),
      (bulkPutGo rpc i cs).1 <+: cs.map (fun c => .txn (bulkPutTxn c)) := by
  intro cs
  induction cs with
  | nil => intro i; simp [bulkPutGo]
  | cons c cs ih =>
    intro i
    cases hc : rpc i (bulkPutTxn c) with
    | error s =>
      simp only [bulkPutGo, hc]
      exact ⟨cs.map (fun c => .txn (bulkPutTxn c)), rfl⟩
    | ok r =>
      simp only [bulkPutGo, hc]
      obtain ⟨t, ht⟩ := ih (i + 1)
      exact ⟨t, by simp [← ht]⟩

theorem bulkPutGo_fail (rpc : Nat → TxnRequest → Except Status TxnResponse) (s : Status) :
    ∀ (cs : List (List Bytes)) (i0 i : Nat), i < cs.length →
      (∀ j, j < i → (rpc (i0 + j) (bulkPutTxn (cs.getD j []))).isOk = true) →
      rpc (i0 + i) (bulkPutTxn (cs.getD i [])) = .error s →
      bulkPutGo rpc i0 cs =
        ((cs.take (i + 1)).map (fun c => .txn (bulkPutTxn c)), .error (.Grpc s)) := by
  intro cs
  induction cs with
  | nil => intro i0 i hi; simp at hi
  | cons c cs ih =>
    intro i0 i hi hok hfail
    cases i with
    | zero =>
      simp only [List.getD_cons_zero, Nat.add_zero] at hfail
      simp [bulkPutGo, hfail]
    | succ i =>
      have h0 := hok 0 (Nat.succ_pos i)
      simp only [List.getD_cons_zero, Nat.add_zero] at h0
      cases hc : rpc i0 (bulkPutTxn c) with
      | error e => rw [hc] at h0; simp [Except.isOk, Except.toBool] at h0
      | ok r =>
        simp only [bulkPutGo, hc, List.take_succ_cons, List.map_cons]
        have hrec := ih (i0 + 1) i (by simpa using hi)
          (fun j hj => by
            have := hok (j + 1) (Nat.succ_lt_succ hj)
            simpa [Nat.add_assoc, Nat.add_comm 1 j] using this)
          (by
            have := hfail
            simpa [Nat.add_assoc, Nat.add_comm 1 i] using this)
        rw [hrec]

theorem bulkPutGo_err_grpc (rpc : Nat → TxnRequest → Except Status TxnResponse) :
    ∀ (cs : List (List Bytes)) (i : Nat) (e : Error),
      (bulkPutGo rpc i cs).2 = .error e → ∃ s, e = .Grpc s := by
  intro cs
  induction cs with
  | nil => intro i e h; simp [bulkPutGo] at h
  | cons c cs ih =>
    intro i e h
    cases hc : rpc i (bulkPutTxn c) with
    | error s =>
      simp only [bulkPutGo, hc, Except.error.injEq] at h
      exact ⟨s, h.symm⟩
    | ok r =>
      simp only [bulkPutGo, hc] at h
      exact ih (i + 1) e h


/-! ## Concrete stubs used by the witnesses -/

/-- A stub for concrete evaluation: answers every range query with `r` and
every txn call with `t`. -/
def constStub (r : RangeResponse) (t : Except Status TxnResponse) : KvStub where
  putRpc := fun _ => .ok .mk
  rangeRpc := fun _ => .ok r
  deleteRangeRpc := fun _ => .ok .mk
  txnRpc := fun _ _ => t

/-- A stub whose txn calls fail from sequence number `k` on. -/
def failFromStub (k : Nat) (s : Status) : KvStub where
  putRpc := fun _ => .ok .mk
  rangeRpc := fun _ => .ok {}
  deleteRangeRpc := fun _ => .ok .mk
  txnRpc := fun i _ => if k ≤ i then .error s else .ok {}

/-- C1: swap builds a transaction whose only predicate is an equality
comparison on value for the key against the old value, whose success branch is
the single put of the new value, and whose failure branch is empty; it issues
exactly that transaction, and when the RPC succeeds it returns the
SwapFailed error exactly when the response's succeeded flag is false and
Ok(()) exactly when it is true. -/
theorem swap_txn_shape_and_result (self : EtcdClient) (k old_v new_v : Bytes)
    (resp : TxnResponse) :
    (swapTxn k old_v new_v).compare =
      [{ result := .Equal, target := .Value, key := k, range_end := [],
         target_union := some (.value old_v) }] ∧
    (swapTxn k old_v new_v).success =
      [{ request := some (.RequestPut
          { key := k, value := new_v, lease := 0, prev_kv := false,
            ignore_value := false, ignore_lease := false }) }] ∧
    (swapTxn k old_v new_v).failure = [] ∧
    (self.swap k old_v new_v).1 = [.txn (swapTxn k old_v new_v)] ∧
    (self.kv.txnRpc 0 (swapTxn k old_v new_v) = .ok resp →
      ((self.swap k old_v new_v).2 = .error (.Swap k) ↔ resp.succeeded = false) ∧
      ((self.swap k old_v new_v).2 = .ok () ↔ resp.succeeded = true)) := by
  refine ⟨rfl, rfl, rfl, rfl, fun h => ?_⟩
  cases hs : resp.succeeded <;>
    simp [EtcdClient.swap, h, hs]

/-- Witness for C1 at concrete inputs: a txn response with succeeded = false
makes swap fail with the Swap error for its key. -/
theorem swap_txn_shape_and_result_witness :
    (EtcdClient.mk (constStub {} (.ok { succeeded := false }))).kv.txnRpc 0
        (swapTxn [1] [2] [3]) = .ok { succeeded := false } ∧
    (((EtcdClient.mk (constStub {} (.ok { succeeded := false }))).swap [1] [2] [3]).2 =
        .error (.Swap [1]) ↔
      ({ succeeded := false } : TxnResponse).succeeded = false) :=
  ⟨rfl,
   ((swap_txn_shape_and_result (EtcdClient.mk (constStub {} (.ok { succeeded := false })))
      [1] [2] [3] { succeeded := false }).2.2.2.2 rfl).1⟩

/-- C5: delete issues exactly one transaction request in a single round trip,
with empty compare and failure lists, whose success branch has exactly one
exact-key DeleteRange (empty range end) per input key, in input order. -/
theorem delete_single_unconditional_txn (self : EtcdClient) (keys : List Bytes) :
    (self.delete keys).1 = [.txn (deleteTxn keys)] ∧
    (deleteTxn keys).compare = [] ∧
    (deleteTxn keys).failure = [] ∧
    (deleteTxn keys).success = keys.map (fun key =>
      { request := some (.RequestDeleteRange
          { key := key, range_end := [], prev_kv := false }) }) :=
  ⟨rfl, rfl, rfl, rfl⟩

/-- C7: every SyncEtcdClient method returns exactly the result of running the
corresponding async EtcdClient method on the wrapped inner client to
completion; blocking adds no behavior. -/
theorem sync_client_refines_async (s : SyncEtcdClient) (k v old_v new_v p : Bytes)
    (keys : List Bytes) :
    s.put k v = s.inner.put k v ∧
    s.bulk_put keys = s.inner.bulk_put keys ∧
    s.get k = s.inner.get k ∧
    s.getPrefix p = s.inner.getPrefix p ∧
    s.delete keys = s.inner.delete keys ∧
    s.deletePrefix p = s.inner.deletePrefix p ∧
    s.swap k old_v new_v = s.inner.swap k old_v new_v :=
  ⟨rfl, rfl, rfl, rfl, rfl, rfl, rfl⟩

/-- C8: for the empty prefix, get_prefix and delete_prefix derive the range end
from the prefix by the same `incLast` rule used for every prefix, with no
special-casing: on the empty prefix that rule leaves the end empty. -/
theorem empty_prefix_no_special_case :
    (∀ p : Bytes, (getPrefixRequest p).key = p ∧
      (getPrefixRequest p).range_end = incLast p ∧
      (deletePrefixRequest p).key = p ∧
      (deletePrefixRequest p).range_end = incLast p) ∧
    incLast [] = [] ∧
    getPrefixRequest [] = { key := [], range_end := [] } ∧
    deletePrefixRequest [] = { key := [], range_end := [], prev_kv := false } :=
  ⟨fun _ => ⟨rfl, rfl, rfl, rfl⟩, rfl, rfl, rfl⟩

/-- C6: get issues a single-key range query with empty range end and returns
none when the response has no entries; when it has entries (one or several) it
returns the value of the last entry in the response list, not an error. -/
theorem get_returns_last_entry (self : EtcdClient) (k : Bytes) (resp : RangeResponse)
    (hresp : self.kv.rangeRpc (getRequest k) = .ok resp) :
    (self.get k).1 = [.range (getRequest k)] ∧
    (getRequest k).key = k ∧
    (getRequest k).range_end = [] ∧
    (resp.kvs = [] → (self.get k).2 = .ok (.ok none)) ∧
    (∀ kv, resp.kvs.getLast? = some kv → utf8Valid kv.value = true →
      (self.get k).2 = .ok (.ok (some kv.value))) := by
  refine ⟨rfl, rfl, rfl, fun h => ?_, fun kv hlast hval => ?_⟩
  · simp [EtcdClient.get, hresp, h]
  · simp [EtcdClient.get, hresp, hlast, fromUtf8, hval]

/-- Witness for C6: a response with two entries makes get return the value of
the last one. -/
theorem get_returns_last_entry_witness :
    ({ kvs := [{ key := [97], value := [100] }, { key := [98], value := [101] }] }
        : RangeResponse).kvs.getLast? = some { key := [98], value := [101] } ∧
    ((EtcdClient.mk (constStub
        { kvs := [{ key := [97], value := [100] }, { key := [98], value := [101] }] }
        (.ok {}))).get [97]).2 = .ok (.ok (some [101])) :=
  ⟨rfl,
   (get_returns_last_entry
      (EtcdClient.mk (constStub
        { kvs := [{ key := [97], value := [100] }, { key := [98], value := [101] }] }
        (.ok {})))
      [97] _ rfl).2.2.2.2 { key := [98], value := [101] } rfl (by decide)⟩


/-- C4: for a non-empty prefix, get_prefix and delete_prefix use the range
whose start is the prefix itself and whose end is the prefix with its last
byte incremented (wrapping at 0xFF with no special-casing); when the last byte
is below 0xFF, every key with the prefix as a byte-prefix lies in
[start, end) of the byte-lexicographic order. -/
theorem prefix_range_correct (p k : Bytes) (hp : p ≠ [])
    (hb : p.getLast hp < 255) (hpre : p <+: k) :
    (getPrefixRequest p).key = p ∧
    (deletePrefixRequest p).key = p ∧
    (getPrefixRequest p).range_end = p.dropLast ++ [(p.getLast hp + 1) % 256] ∧
    (deletePrefixRequest p).range_end = (getPrefixRequest p).range_end ∧
    (∀ (q : Bytes) (b : Nat), incLast (q ++ [b]) = q ++ [(b + 1) % 256]) ∧
    (∀ q : Bytes, incLast (q ++ [255]) = q ++ [0]) ∧
    bytesLe p k ∧
    bytesLt k ((getPrefixRequest p).range_end) = true := by
  obtain ⟨t, rfl⟩ := hpre
  refine ⟨rfl, rfl, incLast_eq_dropLast p hp, rfl, incLast_append_singleton,
    fun q => by rw [incLast_append_singleton],
    bytesLe_append p t, ?_⟩
  show bytesLt (p ++ t) (incLast p) = true
  have hsplit : p.dropLast ++ [p.getLast hp] = p := List.dropLast_append_getLast hp
  have hmod : (p.getLast hp + 1) % 256 = p.getLast hp + 1 := Nat.mod_eq_of_lt (by omega)
  rw [incLast_eq_dropLast p hp, hmod]
  have h2 : p ++ t = p.dropLast ++ (p.getLast hp :: t) := by
    conv_lhs => rw [← hsplit]
    simp
  rw [h2]
  exact bytesLt_snoc_inc _ _ _

/-- Witness for C4: prefix "a" = [97], key [97, 255]: the key is in the range
[[97], [98]). -/
theorem prefix_range_correct_witness :
    ([97] : Bytes) ≠ [] ∧
    ([97] : Bytes) <+: [97, 255] ∧
    bytesLt [97, 255] ((getPrefixRequest [97]).range_end) = true :=
  ⟨by decide, ⟨[255], rfl⟩,
   (prefix_range_correct [97] [97, 255] (by decide) (by decide)
      ⟨[255], rfl⟩).2.2.2.2.2.2.2⟩

/-- C2: bulk_put partitions the key list in order into consecutive batches of
at most 1000 (ceil(N/1000) batches; any 2500 keys give sizes 1000, 1000, 500)
and issues one unconditional transaction per batch whose success branch has
one empty-valued Put per key of the batch, in input order. -/
theorem bulk_put_batching (self : EtcdClient) (keys : List Bytes)
    (hok : ∀ i t, (self.kv.txnRpc i t).isOk = true) :
    (self.bulk_put keys).1 =
      (chunks 1000 keys).map (fun c => .txn (bulkPutTxn c)) ∧
    (self.bulk_put keys).2 = .ok () ∧
    (chunks 1000 keys).length = (keys.length + 999) / 1000 ∧
    (chunks 1000 keys).flatten = keys ∧
    (∀ c ∈ chunks 1000 keys, c.length ≤ 1000) ∧
    (∀ c : List Bytes, (bulkPutTxn c).compare = [] ∧ (bulkPutTxn c).failure = [] ∧
      (bulkPutTxn c).success = c.map (fun key => { request := some (.RequestPut
        { key := key, value := [], lease := 0, prev_kv := false,
          ignore_value := false, ignore_lease := false }) })) ∧
    (∀ l : List Bytes, l.length = 2500 →
      (chunks 1000 l).map List.length = [1000, 1000, 500]) := by
  have h := bulkPutGo_ok self.kv.txnRpc hok (chunks 1000 keys) 0
  refine ⟨?_, ?_, ?_, chunks_flatten 1000 (by norm_num) keys,
    chunks_mem_length 1000 (by norm_num) keys,
    fun c => ⟨rfl, rfl, rfl⟩, fun l hl => chunks_len_2500 l hl⟩
  · exact congrArg Prod.fst h
  · exact congrArg Prod.snd h
  · simpa using chunks_length 1000 (by norm_num) keys

/-- Witness for C2: with an always-succeeding txn oracle, one key gives one
batch and the call returns Ok; the 2500-key size fact holds of a concrete
2500-key list. -/
theorem bulk_put_batching_witness :
    (∀ i t, (((constStub {} (.ok {})) : KvStub).txnRpc i t).isOk = true) ∧
    ((EtcdClient.mk (constStub {} (.ok {}))).bulk_put [[97]]).2 = .ok () ∧
    (chunks 1000 (List.replicate 2500 ([] : Bytes))).map List.length =
      [1000, 1000, 500] := by
  have h := bulk_put_batching (EtcdClient.mk (constStub {} (.ok {}))) [[97]]
    (fun i t => rfl)
  exact ⟨fun i t => rfl, h.2.1,
    h.2.2.2.2.2.2 (List.replicate 2500 []) (by rw [List.length_replicate])⟩

/-- C3: if the transaction RPC for batch i of bulk_put fails while all earlier
batches succeeded, bulk_put issues exactly batches 0..i (none after) and
returns that error; the issued requests of any bulk_put call are a prefix of
the full batch sequence. -/
theorem bulk_put_fail_fast (self : EtcdClient) (keys : List Bytes) (i : Nat) (s : Status)
    (hi : i < (chunks 1000 keys).length)
    (hok : ∀ j, j < i →
      (self.kv.txnRpc j (bulkPutTxn ((chunks 1000 keys).getD j []))).isOk = true)
    (hfail : self.kv.txnRpc i (bulkPutTxn ((chunks 1000 keys).getD i [])) = .error s) :
    self.bulk_put keys =
      (((chunks 1000 keys).take (i + 1)).map (fun c => .txn (bulkPutTxn c)),
       .error (.Grpc s)) ∧
    (∀ (self2 : EtcdClient) (keys2 : List Bytes),
      (self2.bulk_put keys2).1 <+:
        (chunks 1000 keys2).map (fun c => .txn (bulkPutTxn c))) := by
  constructor
  · have h := bulkPutGo_fail self.kv.txnRpc s (chunks 1000 keys) 0 i hi
      (fun j hj => by simpa using hok j hj) (by simpa using hfail)
    exact h
  · exact fun self2 keys2 => bulkPutGo_fst_prefix self2.kv.txnRpc (chunks 1000 keys2) 0

/-- Witness for C3: a stub whose txn calls all fail makes bulk_put of one key
fail on its first (and only) batch, having issued just that one request. -/
theorem bulk_put_fail_fast_witness :
    0 < (chunks 1000 [[97]]).length ∧
    (EtcdClient.mk (failFromStub 0 { code := 5 })).bulk_put [[97]] =
      (((chunks 1000 [[97]]).take 1).map (fun c => .txn (bulkPutTxn c)),
       .error (.Grpc { code := 5 })) := by
  have hlen : 0 < (chunks 1000 [[97]]).length := by
    rw [chunks_length 1000 (by norm_num)]
    decide
  exact ⟨hlen,
    (bulk_put_fail_fast (EtcdClient.mk (failFromStub 0 { code := 5 })) [[97]] 0
      { code := 5 } hlen (fun j hj => absurd hj (Nat.not_lt_zero j)) rfl).1⟩


/-- Decoding a kvs list whose keys and values are all valid UTF-8 never
panics: it yields exactly the list of (key, value) pairs. -/
theorem decodeKvs_ok (kvs : List KeyValue)
    (h : ∀ kv ∈ kvs, utf8Valid kv.key = true ∧ utf8Valid kv.value = true) :
    decodeKvs kvs = .ok (kvs.map (fun kv => (kv.key, kv.value))) := by
  induction kvs with
  | nil => rfl
  | cons kv rest ih =>
    have hkv := h kv (List.mem_cons_self kv rest)
    have hrest := ih (fun x hx => h x (List.mem_cons_of_mem kv hx))
    simp [decodeKvs, fromUtf8, hkv.1, hkv.2, hrest]

/-- C10: get and get_prefix decode returned keys and values with an unchecked
UTF-8 conversion: whenever every byte sequence in the response is valid UTF-8
they do not panic, and there is a store response with non-UTF-8 bytes on which
each of them panics. -/
theorem utf8_decode_panic (self : EtcdClient) (k p : Bytes) (resp : RangeResponse)
    (hvalid : ∀ kv ∈ resp.kvs, utf8Valid kv.key = true ∧ utf8Valid kv.value = true) :
    (self.kv.rangeRpc (getRequest k) = .ok resp → (self.get k).2 ≠ .panic) ∧
    (self.kv.rangeRpc (getPrefixRequest p) = .ok resp →
      (self.getPrefix p).2 ≠ .panic) ∧
    utf8Valid [255] = false ∧
    ((EtcdClient.mk (constStub { kvs := [{ key := [255], value := [255] }] }
        (.ok {}))).get []).2 = .panic ∧
    ((EtcdClient.mk (constStub { kvs := [{ key := [255], value := [255] }] }
        (.ok {}))).getPrefix []).2 = .panic := by
  refine ⟨fun hresp => ?_, fun hresp => ?_, by decide, by decide, by decide⟩
  · cases hlast : resp.kvs.getLast? with
    | none => simp [EtcdClient.get, hresp, hlast]
    | some kv =>
      have hmem : kv ∈ resp.kvs := by
        obtain ⟨hne, heq⟩ := List.mem_getLast?_eq_getLast (l := resp.kvs) (x := kv)
          (by rw [hlast]; rfl)
        rw [heq]
        exact List.getLast_mem hne
      have hval := (hvalid kv hmem).2
      simp [EtcdClient.get, hresp, hlast, fromUtf8, hval]
  · simp [EtcdClient.getPrefix, hresp, decodeKvs_ok resp.kvs hvalid]

/-- Witness for C10: a response whose single entry is ASCII decodes without a
panic. -/
theorem utf8_decode_panic_witness :
    (∀ kv ∈ ({ kvs := [{ key := [104], value := [105] }] } : RangeResponse).kvs,
      utf8Valid kv.key = true ∧ utf8Valid kv.value = true) ∧
    ((EtcdClient.mk (constStub { kvs := [{ key := [104], value := [105] }] }
        (.ok {}))).get [107]).2 ≠ .panic :=
  ⟨by decide,
   (utf8_decode_panic
      (EtcdClient.mk (constStub { kvs := [{ key := [104], value := [105] }] } (.ok {})))
      [107] [] { kvs := [{ key := [104], value := [105] }] } (by decide)).1 rfl⟩

/-- C9: every failure any operation or constructor returns falls under the
spec's three kinds — transport (connection/channel/I-O), remote RPC status, or
swap-failed — and a swap-failed error is returned only by swap (and carries
swap's key). -/
theorem error_taxonomy (self : EtcdClient) (sc : SyncEtcdClient)
    (rt : Except IoErr Unit) (conn : Except TransportErr KvStub)
    (k v old_v new_v p : Bytes) (keys : List Bytes) :
    (∀ e : Error, e.kind = .transport ∨ e.kind = .remote ∨ e.kind = .swapFailed) ∧
    (∀ e, (self.put k v).2 = .error e → e.kind = .remote) ∧
    (∀ e, (self.bulk_put keys).2 = .error e → e.kind = .remote) ∧
    (∀ e, (self.get k).2 = .ok (.error e) → e.kind = .remote) ∧
    (∀ e, (self.getPrefix p).2 = .ok (.error e) → e.kind = .remote) ∧
    (∀ e, (self.delete keys).2 = .error e → e.kind = .remote) ∧
    (∀ e, (self.deletePrefix p).2 = .error e → e.kind = .remote) ∧
    (∀ e, (self.swap k old_v new_v).2 = .error e →
      e.kind = .remote ∨ e = .Swap k) ∧
    (∀ e, (sc.put k v).2 = .error e → e.kind = .remote) ∧
    (∀ e, (sc.bulk_put keys).2 = .error e → e.kind = .remote) ∧
    (∀ e, (sc.get k).2 = .ok (.error e) → e.kind = .remote) ∧
    (∀ e, (sc.getPrefix p).2 = .ok (.error e) → e.kind = .remote) ∧
    (∀ e, (sc.delete keys).2 = .error e → e.kind = .remote) ∧
    (∀ e, (sc.deletePrefix p).2 = .error e → e.kind = .remote) ∧
    (∀ e, (sc.swap k old_v new_v).2 = .error e →
      e.kind = .remote ∨ e = .Swap k) ∧
    (∀ e, EtcdClient.new conn = .error e → e.kind = .transport) ∧
    (∀ e, SyncEtcdClient.new rt conn = .error e → e.kind = .transport) := by
  have hput : ∀ (c : EtcdClient) e, (c.put k v).2 = .error e → e.kind = .remote := by
    intro c e h
    cases hc : c.kv.putRpc (putRequest k v) <;> simp [EtcdClient.put, hc] at h
    subst h; rfl
  have hbulk : ∀ (c : EtcdClient) e, (c.bulk_put keys).2 = .error e →
      e.kind = .remote := by
    intro c e h
    obtain ⟨s, rfl⟩ := bulkPutGo_err_grpc c.kv.txnRpc (chunks 1000 keys) 0 e h
    rfl
  have hget : ∀ (c : EtcdClient) e, (c.get k).2 = .ok (.error e) →
      e.kind = .remote := by
    intro c e h
    cases hc : c.kv.rangeRpc (getRequest k) with
    | error s =>
      simp [EtcdClient.get, hc] at h
      subst h; rfl
    | ok resp =>
      cases hlast : resp.kvs.getLast? with
      | none => simp [EtcdClient.get, hc, hlast] at h
      | some kv =>
        cases hdec : fromUtf8 kv.value <;>
          simp [EtcdClient.get, hc, hlast, hdec] at h
  have hgetp : ∀ (c : EtcdClient) e, (c.getPrefix p).2 = .ok (.error e) →
      e.kind = .remote := by
    intro c e h
    cases hc : c.kv.rangeRpc (getPrefixRequest p) with
    | error s =>
      simp [EtcdClient.getPrefix, hc] at h
      subst h; rfl
    | ok resp =>
      cases hdec : decodeKvs resp.kvs <;>
        simp [EtcdClient.getPrefix, hc, hdec] at h
  have hdel : ∀ (c : EtcdClient) e, (c.delete keys).2 = .error e →
      e.kind = .remote := by
    intro c e h
    cases hc : c.kv.txnRpc 0 (deleteTxn keys) <;> simp [EtcdClient.delete, hc] at h
    subst h; rfl
  have hdelp : ∀ (c : EtcdClient) e, (c.deletePrefix p).2 = .error e →
      e.kind = .remote := by
    intro c e h
    cases hc : c.kv.deleteRangeRpc (deletePrefixRequest p) <;>
      simp [EtcdClient.deletePrefix, hc] at h
    subst h; rfl
  have hswap : ∀ (c : EtcdClient) e, (c.swap k old_v new_v).2 = .error e →
      e.kind = .remote ∨ e = .Swap k := by
    intro c e h
    cases hc : c.kv.txnRpc 0 (swapTxn k old_v new_v) with
    | error s =>
      simp [EtcdClient.swap, hc] at h
      subst h; left; rfl
    | ok resp =>
      cases hs : resp.succeeded <;> simp [EtcdClient.swap, hc, hs] at h
      subst h; right; rfl
  refine ⟨fun e => by cases e <;> simp [Error.kind],
    hput self, hbulk self, hget self, hgetp self, hdel self, hdelp self, hswap self,
    hput sc.inner, hbulk sc.inner, hget sc.inner, hgetp sc.inner, hdel sc.inner,
    hdelp sc.inner, hswap sc.inner, fun e h => ?_, fun e h => ?_⟩
  · cases conn <;> simp [EtcdClient.new] at h
    subst h; rfl
  · cases rt with
    | error io => simp [SyncEtcdClient.new] at h; subst h; rfl
    | ok u =>
      cases conn with
      | error te =>
        simp [SyncEtcdClient.new, EtcdClient.new, blockOn] at h
        subst h; rfl
      | ok st => simp [SyncEtcdClient.new, EtcdClient.new, blockOn] at h

/-- Witness for C9: a failed runtime creation surfaces as an I/O error, which
classifies under the transport kind. -/
theorem error_taxonomy_witness :
    SyncEtcdClient.new (.error { code := 3 }) (.ok (constStub {} (.ok {}))) =
      .error (.Io { code := 3 }) ∧
    (Error.Io { code := 3 }).kind = .transport :=
  ⟨rfl,
   (error_taxonomy (EtcdClient.mk (constStub {} (.ok {})))
      (SyncEtcdClient.mk (EtcdClient.mk (constStub {} (.ok {}))))
      (.error { code := 3 }) (.ok (constStub {} (.ok {})))
      [] [] [] [] [] []).2.2.2.2.2.2.2.2.2.2.2.2.2.2.2.2
      (Error.Io { code := 3 }) rfl⟩

end Etcd3
